import Mathlib

/-!
Shallow embedding of the `reio` buffer engine and memory streams.

Pointers are modelled as abstract `Nat` addresses (`0` plays the role of a
null pointer); a contiguous byte range is a `List Nat` of its byte values.
Iterator arguments of the C++ API become offsets from the start of the
buffer.  Fallible operations (which throw `io_exception` in the source)
return `Except String`, carrying the assertion message; since the C++
checks precede every mutation, an error result faithfully models a call
that leaves the buffer untouched.  A source range given by an iterator
pair `[src_begin, src_end)` becomes a single `List Nat`, so the
"misordered source range" failure of the source is unrepresentable here.
-/

namespace Reio

/-- Buffer expansion policy, `growth_factor` in the source. -/
inductive GrowthFactor where
  | none
  | tight
  | mult2x
deriving DecidableEq, Repr

/-- `k_default_growth_factor` in the source. -/
def k_default_growth_factor : GrowthFactor := GrowthFactor.mult2x

/-- Non-owning view of a byte range, `weak_buffer` in the source:
`addr` models `m_begin` and `data` the bytes of `[m_begin, m_end)`. -/
structure WeakBuffer where
  addr : Nat
  data : List Nat
deriving DecidableEq, Repr

/-- Bytes after `std::copy(src_begin, src_end, data + dest)` together with
extending the used range to cover the highest byte written. -/
def listOverwrite (data src : List Nat) (dest : Nat) : List Nat :=
  data.take dest ++ src ++ data.drop (dest + src.length)

/-- `weak_buffer::subview`. -/
def WeakBuffer.subview (v : WeakBuffer) (offset size : Nat) : Except String WeakBuffer :=
  if offset ≤ v.data.length then
    if offset + size ≤ v.data.length then
      Except.ok ⟨v.addr + offset, (v.data.drop offset).take size⟩
    else Except.error "subview size bigger than buffer length"
  else Except.error "subview offset out of buffer bounds"

/-- `weak_buffer::overwrite`; the result pairs the view after the write
with the returned iterator (past the last overwritten byte). -/
def WeakBuffer.overwrite (v : WeakBuffer) (src : List Nat) (dest : Nat) :
    Except String (WeakBuffer × Nat) :=
  if dest ≤ v.data.length then
    if src.length ≤ v.data.length - dest then
      Except.ok (⟨v.addr, listOverwrite v.data src dest⟩, v.addr + dest + src.length)
    else Except.error "overwrite would overflow the buffer"
  else Except.error "destination iterator is out of buffer bounds"

/-- `weak_buffer::insert`: `std::shift_right(dest, m_end, src.length)`
followed by `std::copy` at `dest`, inside the fixed range `[0, length)`. -/
def WeakBuffer.insert (v : WeakBuffer) (src : List Nat) (dest : Nat) :
    Except String (WeakBuffer × Nat) :=
  if dest ≤ v.data.length then
    if src.length ≤ v.data.length - dest then
      Except.ok
        (⟨v.addr,
          v.data.take dest ++ src ++ (v.data.drop dest).take (v.data.length - dest - src.length)⟩,
         v.addr + dest + src.length)
    else Except.error "insert would overflow the buffer"
  else Except.error "destination iterator is out of buffer bounds"

/-- Owning growable buffer, `owning_buffer` in the source: `addr` models
`m_begin`, `data` the used bytes `[m_begin, m_end)`, and `cap` the
capacity `m_alloc_end - m_begin`.  The allocator collaborator is modelled
by passing each allocating operation the address of the block the
allocator returns (`0` for a failed allocation). -/
structure OwningBuffer where
  addr : Nat
  data : List Nat
  cap : Nat
  growth : GrowthFactor
deriving DecidableEq, Repr

/-- The structural invariant `m_begin ≤ m_end ≤ m_alloc_end`. -/
def OwningBuffer.wf (b : OwningBuffer) : Prop := b.data.length ≤ b.cap

instance (b : OwningBuffer) : Decidable b.wf := by
  unfold OwningBuffer.wf; infer_instance

/-- The `while (next < over) next *= 2;` loop of
`owning_buffer::next_capacity` for `growth_factor::mult2x`, entered at
`next = max(1, capacity())`.  Re-applying `max 1` at every step is the
identity on every state the source loop reaches. -/
def mult2xNext (next over : Nat) : Nat :=
  if _h : max 1 next < over then mult2xNext (max 1 next * 2) over else max 1 next
termination_by over - max 1 next
decreasing_by
  have h2 : max 1 (max 1 next * 2) = max 1 next * 2 := by omega
  rw [h2]
  omega

/-- `owning_buffer::next_capacity`. -/
def OwningBuffer.next_capacity (b : OwningBuffer) (over : Nat) : Except String Nat :=
  match b.growth with
  | GrowthFactor.none => Except.error "owning buffer cannot expand with none growth factor"
  | GrowthFactor.tight => Except.ok over
  | GrowthFactor.mult2x => Except.ok (mult2xNext b.cap over)

/-- `owning_buffer::do_realloc`; `freshAddr` is the block returned by
`allocator->allocate(new_capacity)`, `0` modelling a failed allocation.
The used bytes are copied to the new block unchanged. -/
def OwningBuffer.do_realloc (b : OwningBuffer) (newCapacity freshAddr : Nat) :
    Except String OwningBuffer :=
  if b.cap < newCapacity then
    if freshAddr = 0 then Except.error "owning buffer failed to reallocate"
    else Except.ok { b with addr := freshAddr, cap := newCapacity }
  else Except.ok b

/-- `owning_buffer::overwrite`: grows first (via the growth policy) when
the write would run past `m_alloc_end`, then copies and sets
`m_end = m_begin + max(old_length, write_offset + write_length)`. -/
def OwningBuffer.overwrite (b : OwningBuffer) (src : List Nat) (dest freshAddr : Nat) :
    Except String (OwningBuffer × Nat) :=
  if dest ≤ b.data.length then
    (if b.cap - dest < src.length then
      (b.next_capacity (dest + src.length)).bind fun nc => b.do_realloc nc freshAddr
    else Except.ok b).map fun b2 =>
      ({ b2 with data := listOverwrite b.data src dest }, b2.addr + dest + src.length)
  else Except.error "destination iterator is out of buffer bounds"

/-- `owning_buffer::insert`: grows when `m_alloc_end - m_end` cannot hold
the inserted bytes, shifts `[dest, alloc_end)` right, copies the source in,
and sets `m_end = m_begin + old_length + write_length`. -/
def OwningBuffer.insert (b : OwningBuffer) (src : List Nat) (dest freshAddr : Nat) :
    Except String (OwningBuffer × Nat) :=
  if dest ≤ b.data.length then
    (if b.cap - b.data.length < src.length then
      (b.next_capacity (b.data.length + src.length)).bind fun nc => b.do_realloc nc freshAddr
    else Except.ok b).map fun b2 =>
      ({ b2 with data := b.data.take dest ++ src ++ b.data.drop dest },
       b2.addr + dest + src.length)
  else Except.error "destination iterator is out of buffer bounds"

/-- Modelled from the spec: the definition of `owning_buffer::erase` is
absent from the sources (only its declaration in `owning_buffer.hpp` and
its tests are present).  Per the spec it removes `[first, last)` by
shifting the bytes from `last` to `end` left to close the gap, leaves
capacity unchanged, shrinks length by `last - first`, requires
`first ≤ last` with both iterators inside `[begin, end]`, and returns an
iterator to the position just after the erased range, equal to `first`
after the shift. -/
def OwningBuffer.erase (b : OwningBuffer) (first last : Nat) :
    Except String (OwningBuffer × Nat) :=
  if first ≤ last then
    if last ≤ b.data.length then
      Except.ok ({ b with data := b.data.take first ++ b.data.drop last }, b.addr + first)
    else Except.error "erase iterator is out of buffer bounds"
  else Except.error "erase iterators are out of order"

/-- The pre-sizing constructor `owning_buffer(capacity, alloc)`;
`allocAddr` is the block returned by `allocator->allocate(capacity)`
when `capacity > 0`, with `0` modelling a failed allocation. -/
def OwningBuffer.ofCapacity (capacity allocAddr : Nat) : Except String OwningBuffer :=
  if 0 < capacity then
    if allocAddr = 0 then Except.error "owning buffer failed to pre-allocate"
    else Except.ok ⟨allocAddr, [], capacity, k_default_growth_factor⟩
  else Except.ok ⟨0, [], 0, k_default_growth_factor⟩

/-- The copying constructor `owning_buffer(weak_buffer copy, alloc)`:
pre-sizes to `copy.length()`, copies the bytes, then `m_end = m_alloc_end`. -/
def OwningBuffer.ofView (copy : WeakBuffer) (allocAddr : Nat) : Except String OwningBuffer :=
  (OwningBuffer.ofCapacity copy.data.length allocAddr).map fun b => { b with data := copy.data }

/-- `owning_buffer::view`. -/
def OwningBuffer.view (b : OwningBuffer) : WeakBuffer := ⟨b.addr, b.data⟩

/-- Seek origins of the stream hierarchy, `seek_origin` in the source. -/
inductive SeekOrigin where
  | begin
  | current
  | end_
deriving DecidableEq, Repr

/-- `DoCalcPosition` of `memory_streams.cpp` (positions and offsets are
`int64_t` in the source, hence `Int` here). -/
def DoCalcPosition (origin : SeekOrigin) (length position offset : Int) :
    Except String Int :=
  match origin with
  | SeekOrigin.begin =>
    if 0 ≤ offset then
      if offset < length then Except.ok offset
      else Except.error "cannot seek offset from the beginning beyond the underlying buffer"
    else Except.error "cannot seek negative offset from the beginning of the underlying buffer"
  | SeekOrigin.current =>
    let newPosition := position + offset
    if 0 ≤ newPosition then
      if newPosition ≤ length then Except.ok newPosition
      else Except.error "cannot seek offset beyond the underlying buffer end"
    else Except.error "cannot seek offset below the underlying buffer start"
  | SeekOrigin.end_ =>
    if offset ≤ 0 then
      if -length < offset then Except.ok (length + offset)
      else Except.error "cannot seek offset from the beginning beyond the underlying buffer"
    else Except.error "cannot seek positive offset from the end of the underlying buffer"

/-- `memory_input_stream`: an owning buffer plus an `int64_t` position. -/
structure MemoryInputStream where
  buffer : OwningBuffer
  position : Int
deriving DecidableEq, Repr

/-- `memory_output_stream`: an owning buffer plus an `int64_t` position. -/
structure MemoryOutputStream where
  buffer : OwningBuffer
  position : Int
deriving DecidableEq, Repr

/-- `memory_input_stream::seek_begin`. -/
def MemoryInputStream.seek_begin (s : MemoryInputStream) (offset : Int) :
    Except String MemoryInputStream :=
  (DoCalcPosition SeekOrigin.begin (s.buffer.data.length : Int) s.position offset).map
    fun p => { s with position := p }

/-- `memory_input_stream::seek_current`. -/
def MemoryInputStream.seek_current (s : MemoryInputStream) (offset : Int) :
    Except String MemoryInputStream :=
  (DoCalcPosition SeekOrigin.current (s.buffer.data.length : Int) s.position offset).map
    fun p => { s with position := p }

/-- `memory_input_stream::seek_end`. -/
def MemoryInputStream.seek_end (s : MemoryInputStream) (offset : Int) :
    Except String MemoryInputStream :=
  (DoCalcPosition SeekOrigin.end_ (s.buffer.data.length : Int) s.position offset).map
    fun p => { s with position := p }

/-- `memory_output_stream::seek_begin`. -/
def MemoryOutputStream.seek_begin (s : MemoryOutputStream) (offset : Int) :
    Except String MemoryOutputStream :=
  (DoCalcPosition SeekOrigin.begin (s.buffer.data.length : Int) s.position offset).map
    fun p => { s with position := p }

/-- `memory_output_stream::seek_current`. -/
def MemoryOutputStream.seek_current (s : MemoryOutputStream) (offset : Int) :
    Except String MemoryOutputStream :=
  (DoCalcPosition SeekOrigin.current (s.buffer.data.length : Int) s.position offset).map
    fun p => { s with position := p }

/-- `memory_output_stream::seek_end`. -/
def MemoryOutputStream.seek_end (s : MemoryOutputStream) (offset : Int) :
    Except String MemoryOutputStream :=
  (DoCalcPosition SeekOrigin.end_ (s.buffer.data.length : Int) s.position offset).map
    fun p => { s with position := p }

/-- `memory_input_stream::read_bytes`: the result carries the stream after
the read, the output view after the copy into it, and the byte count. -/
def MemoryInputStream.read_bytes (s : MemoryInputStream) (output : WeakBuffer) :
    Except String (MemoryInputStream × WeakBuffer × Int) :=
  if output.addr = 0 then Except.error "cannot read from input streams into nullptr"
  else if output.data.length = 0 then Except.error "cannot read zero bytes from input streams"
  else
    let remainingLength : Int := (s.buffer.data.length : Int) - s.position
    let readLength : Int := min (output.data.length : Int) remainingLength
    Except.ok
      ({ s with position := s.position + readLength },
       ⟨output.addr,
        (s.buffer.data.drop s.position.toNat).take readLength.toNat
          ++ output.data.drop readLength.toNat⟩,
       readLength)

/-- `memory_output_stream::write_bytes`: the result carries the stream
after the write and the byte count returned to the caller.  For a
`none`-growth buffer the write length is clamped to the remaining
capacity before the buffer is asked to write. -/
def MemoryOutputStream.write_bytes (s : MemoryOutputStream) (input : WeakBuffer)
    (freshAddr : Nat) : Except String (MemoryOutputStream × Int) :=
  if input.addr = 0 then Except.error "cannot write to output streams from nullptr"
  else if input.data.length = 0 then Except.error "cannot write zero bytes to output streams"
  else if s.buffer.growth = GrowthFactor.none then
    let remainingCapacity : Int := (s.buffer.cap : Int) - s.position
    let writeLength : Int := min (input.data.length : Int) remainingCapacity
    (s.buffer.overwrite (input.data.take writeLength.toNat) s.position.toNat freshAddr).map
      fun br => ({ buffer := br.1, position := s.position + writeLength }, writeLength)
  else
    (s.buffer.overwrite input.data s.position.toNat freshAddr).map
      fun br =>
        ({ buffer := br.1, position := s.position + (input.data.length : Int) },
         (input.data.length : Int))

/-- Scenario B buffer: owning buffer built from bytes `[1..10]`. -/
def c1buf : OwningBuffer := ⟨1, [1, 2, 3, 4, 5, 6, 7, 8, 9, 10], 10, GrowthFactor.mult2x⟩

/-- Scenario B expected result buffer. -/
def c1res : OwningBuffer := ⟨1, [1, 2, 3, 4, 21, 22, 23, 8, 9, 10], 10, GrowthFactor.mult2x⟩

/-- Scenario E buffer: owning buffer holding bytes `[1..12]`. -/
def c4buf : OwningBuffer := ⟨1, [1, 2, 3, 4, 5, 6, 7, 8, 9, 10, 11, 12], 12, GrowthFactor.mult2x⟩

/-- Scenario E expected result buffer. -/
def c4res : OwningBuffer := ⟨1, [1, 2, 6, 7, 8, 9, 10, 11, 12], 12, GrowthFactor.mult2x⟩

/-- A sequence of appends against an owning buffer: each source list is
written with `overwrite` at `dest = length` (the append position); `fresh`
models the addresses handed out by the allocator on reallocation. -/
def appendAll (b : OwningBuffer) (fresh : Nat) : List (List Nat) → Except String OwningBuffer
  | [] => Except.ok b
  | src :: rest => (b.overwrite src b.data.length fresh).bind fun r => appendAll r.1 fresh rest

/-- Following the spec's words, for comparison with the code: the smallest
multiple of `base` by a power of two that is at least `req`, searching
exponents up to the `fuel` bound. -/
def leastDoubleMultipleAux : Nat → Nat → Nat → Option Nat
  | 0, base, req => if req ≤ base then some base else Option.none
  | fuel + 1, base, req =>
    if req ≤ base then some base else leastDoubleMultipleAux fuel (base * 2) req

/-- Following the spec's words, for comparison with the code: the smallest
power-of-two multiple of `base` that is at least `req` (`Option.none` when
no such multiple exists, which happens exactly for `base = 0 < req`). -/
def leastDoubleMultiple (base req : Nat) : Option Nat :=
  leastDoubleMultipleAux req base req

/-- Invariant of a `mult2x` buffer grown from a base capacity `c0`: the
capacity bounds the length and is the smallest power-of-two multiple of
`c0` that is at least the length. -/
def mult2xInv (c0 : Nat) (b : OwningBuffer) : Prop :=
  b.data.length ≤ b.cap ∧
    ∃ k : Nat, b.cap = c0 * 2 ^ k ∧ ∀ j : Nat, b.data.length ≤ c0 * 2 ^ j → k ≤ j

/-- Scenario D stream: fixed-capacity (`none`) memory output stream of 19
bytes at position 0. -/
def c8stream0 : MemoryOutputStream := ⟨⟨1, [], 19, GrowthFactor.none⟩, 0⟩

/-- Scenario D input view: 20 bytes. -/
def c8input : WeakBuffer :=
  ⟨2, [1, 2, 3, 4, 5, 6, 7, 8, 9, 10, 11, 12, 13, 14, 15, 16, 17, 18, 19, 20]⟩

/-- Scenario D stream after the first (partial) write: the first 19 input
bytes stored, position 19. -/
def c8stream1 : MemoryOutputStream :=
  ⟨⟨1, [1, 2, 3, 4, 5, 6, 7, 8, 9, 10, 11, 12, 13, 14, 15, 16, 17, 18, 19], 19,
    GrowthFactor.none⟩, 19⟩

/-! Helper lemmas about the embedded operations. -/

theorem listOverwrite_length (data src : List Nat) (dest : Nat) (h : dest ≤ data.length) :
    (listOverwrite data src dest).length = max data.length (dest + src.length) := by
  unfold listOverwrite
  simp only [List.length_append, List.length_take, List.length_drop]
  omega

theorem listOverwrite_getElem_left (data src : List Nat) (dest i : Nat) (hi : i < dest)
    (h : dest ≤ data.length) :
    (listOverwrite data src dest)[i]? = data[i]? := by
  unfold listOverwrite
  rw [List.append_assoc, List.getElem?_append, List.length_take,
    if_pos (by omega), List.getElem?_take, if_pos hi]

theorem listOverwrite_getElem_src (data src : List Nat) (dest i : Nat) (hi : i < src.length)
    (h : dest ≤ data.length) :
    (listOverwrite data src dest)[dest + i]? = src[i]? := by
  unfold listOverwrite
  rw [List.append_assoc,
    List.getElem?_append_right (by simp [Nat.min_eq_left h])]
  simp only [List.length_take, Nat.min_eq_left h]
  rw [Nat.add_sub_cancel_left, List.getElem?_append]
  simp [hi]

theorem listOverwrite_getElem_right (data src : List Nat) (dest i : Nat)
    (hi : dest + src.length ≤ i) (h : dest ≤ data.length) :
    (listOverwrite data src dest)[i]? = data[i]? := by
  unfold listOverwrite
  rw [List.append_assoc,
    List.getElem?_append_right (by simp [Nat.min_eq_left h]; omega)]
  simp only [List.length_take, Nat.min_eq_left h]
  rw [List.getElem?_append_right (by omega), List.getElem?_drop]
  congr 1
  omega

theorem mult2xNext_of_lt (next over : Nat) (h : max 1 next < over) :
    mult2xNext next over = mult2xNext (max 1 next * 2) over := by
  rw [mult2xNext]
  simp [h]

theorem mult2xNext_of_ge (next over : Nat) (h : ¬ max 1 next < over) :
    mult2xNext next over = max 1 next := by
  rw [mult2xNext]
  simp [h]

theorem mult2xNext_spec_aux :
    ∀ n cap over : Nat, over - max 1 cap ≤ n →
      ∃ j : Nat, mult2xNext cap over = max 1 cap * 2 ^ j ∧
        over ≤ mult2xNext cap over ∧
        ∀ i : Nat, over ≤ max 1 cap * 2 ^ i → j ≤ i := by
  intro n
  induction n with
  | zero =>
    intro cap over hle
    have h : ¬ max 1 cap < over := by omega
    rw [mult2xNext_of_ge cap over h]
    exact ⟨0, by simp, by omega, fun i _ => Nat.zero_le i⟩
  | succ n ih =>
    intro cap over hle
    by_cases h : max 1 cap < over
    · have hmax : max 1 (max 1 cap * 2) = max 1 cap * 2 := by omega
      obtain ⟨j, hj1, hj2, hj3⟩ := ih (max 1 cap * 2) over (by omega)
      rw [mult2xNext_of_lt cap over h]
      refine ⟨j + 1, ?_, hj2, ?_⟩
      · rw [hj1, hmax, pow_succ]
        ring
      · intro i hi
        match i with
        | 0 =>
          exfalso
          simp only [pow_zero, mul_one] at hi
          omega
        | i' + 1 =>
          have hi' : over ≤ max 1 (max 1 cap * 2) * 2 ^ i' := by
            rw [hmax]
            calc over ≤ max 1 cap * 2 ^ (i' + 1) := hi
            _ = max 1 cap * 2 * 2 ^ i' := by rw [pow_succ]; ring
          exact Nat.succ_le_succ (hj3 i' hi')
    · rw [mult2xNext_of_ge cap over h]
      exact ⟨0, by simp, by omega, fun i _ => Nat.zero_le i⟩

theorem mult2xNext_least (cap over : Nat) :
    ∃ j : Nat, mult2xNext cap over = max 1 cap * 2 ^ j ∧
      over ≤ mult2xNext cap over ∧
      ∀ i : Nat, over ≤ max 1 cap * 2 ^ i → j ≤ i :=
  mult2xNext_spec_aux (over - max 1 cap) cap over (Nat.le_refl _)

theorem do_realloc_ok (b b2 : OwningBuffer) (nc fresh : Nat)
    (h : b.do_realloc nc fresh = Except.ok b2) :
    b2.data = b.data ∧ b2.growth = b.growth ∧ b.cap ≤ b2.cap ∧
      (b.cap < nc → b2.cap = nc) ∧ (¬ b.cap < nc → b2 = b) := by
  unfold OwningBuffer.do_realloc at h
  by_cases hc : b.cap < nc
  · rw [if_pos hc] at h
    by_cases hf : fresh = 0
    · rw [if_pos hf] at h
      exact absurd h (by simp)
    · rw [if_neg hf] at h
      cases h
      refine ⟨rfl, rfl, Nat.le_of_lt hc, fun _ => rfl, fun hn => absurd hc hn⟩
  · rw [if_neg hc] at h
    cases h
    exact ⟨rfl, rfl, Nat.le_refl _, fun hyes => absurd hyes hc, fun _ => rfl⟩

theorem overwrite_nogrow (b : OwningBuffer) (src : List Nat) (dest fresh : Nat)
    (hdest : dest ≤ b.data.length) (hfit : src.length ≤ b.cap - dest) :
    b.overwrite src dest fresh =
      Except.ok ({ b with data := listOverwrite b.data src dest },
        b.addr + dest + src.length) := by
  unfold OwningBuffer.overwrite
  rw [if_pos hdest, if_neg (by omega)]
  rfl

theorem overwrite_ok_shape (b : OwningBuffer) (src : List Nat) (dest fresh : Nat)
    (b' : OwningBuffer) (ret : Nat) (hdest : dest ≤ b.data.length)
    (hok : b.overwrite src dest fresh = Except.ok (b', ret)) :
    b'.data = listOverwrite b.data src dest ∧ b'.growth = b.growth ∧ b.cap ≤ b'.cap ∧
      (src.length ≤ b.cap - dest → b'.cap = b.cap ∧ b'.addr = b.addr) := by
  unfold OwningBuffer.overwrite at hok
  rw [if_pos hdest] at hok
  by_cases hgrow : b.cap - dest < src.length
  · rw [if_pos hgrow] at hok
    cases hnc : b.next_capacity (dest + src.length) with
    | error e =>
      rw [hnc] at hok
      exact absurd hok (by simp [Except.map, Except.bind])
    | ok nc =>
      rw [hnc] at hok
      cases hr : b.do_realloc nc fresh with
      | error e =>
        simp only [Except.bind, hr, Except.map] at hok
        exact Except.noConfusion hok
      | ok b2 =>
        simp only [Except.bind, hr, Except.map, Except.ok.injEq, Prod.mk.injEq] at hok
        obtain ⟨hd, hg, hc, _, _⟩ := do_realloc_ok b b2 nc fresh hr
        refine ⟨?_, ?_, ?_, fun hfit => absurd hgrow (by omega)⟩
        · rw [← hok.1]
        · rw [← hok.1, hg]
        · rw [← hok.1]
          exact hc
  · rw [if_neg hgrow] at hok
    simp only [Except.map, Except.ok.injEq, Prod.mk.injEq] at hok
    refine ⟨?_, ?_, ?_, fun _ => ?_⟩
    · rw [← hok.1]
    · rw [← hok.1]
    · rw [← hok.1]
    · rw [← hok.1]
      exact ⟨rfl, rfl⟩

theorem append_step (b : OwningBuffer) (src : List Nat) (fresh : Nat)
    (hg : b.growth = GrowthFactor.mult2x) (hfresh : fresh ≠ 0)
    (hwf : b.data.length ≤ b.cap) :
    ∃ (b' : OwningBuffer) (ret : Nat),
      b.overwrite src b.data.length fresh = Except.ok (b', ret) ∧
      b'.growth = GrowthFactor.mult2x ∧
      b'.data.length = b.data.length + src.length ∧
      ((b.data.length + src.length ≤ b.cap ∧ b'.cap = b.cap) ∨
        (b.cap < b.data.length + src.length ∧
          b'.cap = mult2xNext b.cap (b.data.length + src.length))) := by
  have hdest : b.data.length ≤ b.data.length := le_refl _
  have hlenlo : (listOverwrite b.data src b.data.length).length
      = b.data.length + src.length := by
    rw [listOverwrite_length _ _ _ hdest]
    omega
  by_cases hgrow : b.cap - b.data.length < src.length
  · obtain ⟨j, hj, hge, hmin⟩ := mult2xNext_least b.cap (b.data.length + src.length)
    have hnc : b.next_capacity (b.data.length + src.length)
        = Except.ok (mult2xNext b.cap (b.data.length + src.length)) := by
      unfold OwningBuffer.next_capacity
      rw [hg]
    have hreal : b.do_realloc (mult2xNext b.cap (b.data.length + src.length)) fresh
        = Except.ok ⟨fresh, b.data, mult2xNext b.cap (b.data.length + src.length), b.growth⟩ := by
      unfold OwningBuffer.do_realloc
      rw [if_pos (by omega), if_neg hfresh]
    refine ⟨⟨fresh, listOverwrite b.data src b.data.length,
      mult2xNext b.cap (b.data.length + src.length), b.growth⟩,
      fresh + b.data.length + src.length, ?_, hg, hlenlo, Or.inr ⟨by omega, rfl⟩⟩
    unfold OwningBuffer.overwrite
    rw [if_pos hdest, if_pos hgrow, hnc]
    simp only [Except.bind]
    rw [hreal]
    rfl
  · refine ⟨⟨b.addr, listOverwrite b.data src b.data.length, b.cap, b.growth⟩,
      b.addr + b.data.length + src.length, ?_, hg, hlenlo, Or.inl ⟨by omega, rfl⟩⟩
    unfold OwningBuffer.overwrite
    rw [if_pos hdest, if_neg hgrow]
    rfl

theorem appendAll_inv (c0 fresh : Nat) (hc0 : 1 ≤ c0) (hfresh : fresh ≠ 0) :
    ∀ (srcs : List (List Nat)) (b b' : OwningBuffer),
      b.growth = GrowthFactor.mult2x → mult2xInv c0 b →
      appendAll b fresh srcs = Except.ok b' → mult2xInv c0 b' := by
  intro srcs
  induction srcs with
  | nil =>
    intro b b' hg hinv h
    unfold appendAll at h
    simp only [Except.ok.injEq] at h
    rw [← h]
    exact hinv
  | cons src rest ih =>
    intro b b' hg hinv h
    unfold appendAll at h
    obtain ⟨b2, ret, hok, hg2, hlen2, hcases⟩ := append_step b src fresh hg hfresh hinv.1
    rw [hok] at h
    simp only [Except.bind] at h
    refine ih b2 b' hg2 ?_ h
    obtain ⟨hwf, k, hk, hmin⟩ := hinv
    rcases hcases with ⟨hle, hcap⟩ | ⟨hlt, hcap⟩
    · refine ⟨by omega, k, by rw [hcap, hk], fun j hj => hmin j (by omega)⟩
    · obtain ⟨j, hj, hge, hminj⟩ := mult2xNext_least b.cap (b.data.length + src.length)
      have hcappos : 1 ≤ b.cap := by
        rw [hk]
        exact Nat.one_le_iff_ne_zero.mpr (by positivity)
      have hmax : max 1 b.cap = b.cap := by omega
      rw [hmax] at hj hminj
      refine ⟨by omega, k + j, ?_, ?_⟩
      · rw [hcap, hj, hk, pow_add]
        ring
      · intro i hi
        rw [hlen2] at hi
        have hki : k ≤ i := hmin i (le_trans (Nat.le_add_right _ _) hi)
        have hstep : b.data.length + src.length ≤ b.cap * 2 ^ (i - k) := by
          calc b.data.length + src.length ≤ c0 * 2 ^ i := hi
          _ = c0 * 2 ^ (k + (i - k)) := by rw [Nat.add_sub_cancel' hki]
          _ = c0 * 2 ^ k * 2 ^ (i - k) := by rw [pow_add, mul_assoc]
          _ = b.cap * 2 ^ (i - k) := by rw [hk]
        have := hminj (i - k) hstep
        omega

/-! Claim theorems. -/

/-- C1: for every owning buffer and valid overwrite call (the source range
is a list, hence ordered; `dest` lies within `[begin, end]`), whenever the
call returns a buffer, its length is `max old_length (dest + src.length)` —
unchanged for writes within old bounds, extended to the highest byte
written otherwise — the bytes `[dest, dest + src.length)` equal the source,
every other previously used byte is unchanged, and the capacity is
unchanged whenever the write fits the existing allocation. -/
theorem c1_overwrite_post (b : OwningBuffer) (src : List Nat) (dest fresh : Nat)
    (b' : OwningBuffer) (ret : Nat) (hdest : dest ≤ b.data.length)
    (hok : b.overwrite src dest fresh = Except.ok (b', ret)) :
    b'.data.length = max b.data.length (dest + src.length) ∧
    (∀ i : Nat, i < src.length → b'.data[dest + i]? = src[i]?) ∧
    (∀ i : Nat, i < dest → b'.data[i]? = b.data[i]?) ∧
    (∀ i : Nat, dest + src.length ≤ i → b'.data[i]? = b.data[i]?) ∧
    (src.length ≤ b.cap - dest → b'.cap = b.cap) := by
  obtain ⟨hd, _, _, hfit⟩ := overwrite_ok_shape b src dest fresh b' ret hdest hok
  rw [hd]
  exact ⟨listOverwrite_length _ _ _ hdest,
    fun i hi => listOverwrite_getElem_src _ _ _ i hi hdest,
    fun i hi => listOverwrite_getElem_left _ _ _ i hi hdest,
    fun i hi => listOverwrite_getElem_right _ _ _ i hi hdest,
    fun hf => (hfit hf).1⟩

/-- Witness for C1: scenario B, `overwrite([21,22,23], at offset 4)` on
`[1..10]` gives `[1,2,3,4,21,22,23,8,9,10]`, length and capacity 10. -/
theorem c1_overwrite_post_witness :
    c1buf.overwrite [21, 22, 23] 4 1 = Except.ok (c1res, 8) ∧
    c1res.data.length = max c1buf.data.length (4 + 3) ∧
    c1res.data[4]? = some 21 ∧
    c1res.data[0]? = c1buf.data[0]? ∧
    c1res.data[9]? = c1buf.data[9]? ∧
    c1res.cap = c1buf.cap := by
  have hok : c1buf.overwrite [21, 22, 23] 4 1 = Except.ok (c1res, 8) := by rfl
  have h := c1_overwrite_post c1buf [21, 22, 23] 4 1 c1res 8 (by decide) hok
  refine ⟨hok, h.1, ?_, h.2.2.1 0 (by norm_num), h.2.2.2.1 9 (by norm_num),
    h.2.2.2.2 (by decide)⟩
  simpa using h.2.1 0 (by norm_num)

/-- C2: with growth policy `none`, an overwrite or insert that needs more
space than the allocation can provide fails with the `none` growth-factor
error; since in the source every check precedes every mutation and the
failure is raised before `do_realloc`, the copy and the `m_end` update,
the error return models a buffer left completely unmodified. -/
theorem c2_none_growth_fails (b : OwningBuffer) (src : List Nat) (dest fresh : Nat)
    (hg : b.growth = GrowthFactor.none) (hdest : dest ≤ b.data.length) :
    (b.cap - dest < src.length →
      b.overwrite src dest fresh
        = Except.error "owning buffer cannot expand with none growth factor") ∧
    (b.cap - b.data.length < src.length →
      b.insert src dest fresh
        = Except.error "owning buffer cannot expand with none growth factor") := by
  constructor
  · intro hgrow
    unfold OwningBuffer.overwrite
    rw [if_pos hdest, if_pos hgrow]
    unfold OwningBuffer.next_capacity
    rw [hg]
    rfl
  · intro hgrow
    unfold OwningBuffer.insert
    rw [if_pos hdest, if_pos hgrow]
    unfold OwningBuffer.next_capacity
    rw [hg]
    rfl

/-- Witness for C2: a two-byte `none` buffer with capacity 2 rejects a
three-byte overwrite and a three-byte insert. -/
theorem c2_none_growth_fails_witness :
    (OwningBuffer.overwrite ⟨1, [5, 6], 2, GrowthFactor.none⟩ [7, 8, 9] 0 1
      = Except.error "owning buffer cannot expand with none growth factor") ∧
    (OwningBuffer.insert ⟨1, [5, 6], 2, GrowthFactor.none⟩ [7, 8, 9] 0 1
      = Except.error "owning buffer cannot expand with none growth factor") := by
  have h := c2_none_growth_fails ⟨1, [5, 6], 2, GrowthFactor.none⟩ [7, 8, 9] 0 1
    (by rfl) (by decide)
  exact ⟨h.1 (by decide), h.2 (by decide)⟩

/-- C4: under its preconditions (`first ≤ last`, both within `[begin, end]`),
`erase(first, last)` closes the gap by shifting the tail left, keeps the
capacity, shrinks the length by `last - first`, and returns the iterator
`begin + first`.  (`spec-modelled`: the body of `owning_buffer::erase` is
absent from the sources, so `OwningBuffer.erase` is modelled from the
spec.) -/
theorem c4_erase_spec (b : OwningBuffer) (first last : Nat) (hord : first ≤ last)
    (hin : last ≤ b.data.length) :
    ∃ b' : OwningBuffer, b.erase first last = Except.ok (b', b.addr + first) ∧
      b'.cap = b.cap ∧
      b'.data.length = b.data.length - (last - first) ∧
      (∀ i : Nat, i < first → b'.data[i]? = b.data[i]?) ∧
      (∀ i : Nat, first ≤ i → b'.data[i]? = b.data[i + (last - first)]?) := by
  have hfl : first ≤ b.data.length := le_trans hord hin
  refine ⟨{ b with data := b.data.take first ++ b.data.drop last }, ?_, rfl, ?_, ?_, ?_⟩
  · unfold OwningBuffer.erase
    rw [if_pos hord, if_pos hin]
  · simp only [List.length_append, List.length_take, List.length_drop]
    omega
  · intro i hi
    simp only
    rw [List.getElem?_append, List.length_take, if_pos (by omega),
      List.getElem?_take, if_pos hi]
  · intro i hi
    simp only
    rw [List.getElem?_append_right (by simp [Nat.min_eq_left hfl]; omega),
      List.length_take, Nat.min_eq_left hfl, List.getElem?_drop]
    congr 1
    omega

/-- Witness for C4: scenario E, `erase(begin+2, begin+5)` on `[1..12]`
yields `[1,2,6,7,8,9,10,11,12]`, length 9, capacity unchanged, returned
iterator `begin + 2`. -/
theorem c4_erase_spec_witness :
    c4buf.erase 2 5 = Except.ok (c4res, 3) ∧ c4res.cap = c4buf.cap ∧
    c4res.data.length = c4buf.data.length - (5 - 2) ∧
    c4res.data[1]? = c4buf.data[1]? ∧
    c4res.data[2]? = c4buf.data[5]? := by
  obtain ⟨b', hok, hcap, hlen, hl, hr⟩ := c4_erase_spec c4buf 2 5 (by norm_num) (by decide)
  have hconc : c4buf.erase 2 5 = Except.ok (c4res, 3) := by rfl
  have heq := hconc.symm.trans hok
  simp only [Except.ok.injEq, Prod.mk.injEq] at heq
  obtain ⟨hb, -⟩ := heq
  subst hb
  exact ⟨hconc, hcap, hlen, hl 1 (by norm_num), by simpa using hr 2 (by norm_num)⟩

/-- Counterexample for C5: the source range `[9, 9]` is longer than the
single byte of space between `dest_begin = begin + 2` and the end of the
three-byte view, and `weak_buffer::insert` fails with the overflow
`io_exception` instead of succeeding and silently discarding the overflow
source bytes. -/
theorem c5_weak_insert_counterexample :
    WeakBuffer.insert ⟨1, [1, 2, 3]⟩ [9, 9] 2
      = Except.error "insert would overflow the buffer" := by
  rfl

/-- C5 amended: a View insert whose source range is longer than the space
between `dest_begin` and the view's end fails with the overflow
`io_exception`; when the source fits that space, the insert succeeds
without growing the view, existing content shifts right within the fixed
range, and the trailing bytes shifted past the view's end are silently
lost. -/
theorem c5_weak_insert_spec (v : WeakBuffer) (src : List Nat) (dest : Nat)
    (hdest : dest ≤ v.data.length) :
    (v.data.length - dest < src.length →
      v.insert src dest = Except.error "insert would overflow the buffer") ∧
    (src.length ≤ v.data.length - dest →
      ∃ v' : WeakBuffer, v.insert src dest = Except.ok (v', v.addr + dest + src.length) ∧
        v'.data.length = v.data.length ∧
        (∀ i : Nat, i < dest → v'.data[i]? = v.data[i]?) ∧
        (∀ i : Nat, i < src.length → v'.data[dest + i]? = src[i]?) ∧
        (∀ i : Nat, dest + src.length ≤ i → i < v.data.length →
          v'.data[i]? = v.data[i - src.length]?)) := by
  constructor
  · intro hover
    unfold WeakBuffer.insert
    rw [if_pos hdest, if_neg (by omega)]
  · intro hfit
    refine ⟨⟨v.addr,
      v.data.take dest ++ src ++ (v.data.drop dest).take (v.data.length - dest - src.length)⟩,
      ?_, ?_, ?_, ?_, ?_⟩
    · unfold WeakBuffer.insert
      rw [if_pos hdest, if_pos hfit]
    · simp only [List.length_append, List.length_take, List.length_drop]
      omega
    · intro i hi
      simp only
      rw [List.append_assoc, List.getElem?_append, List.length_take,
        if_pos (by omega), List.getElem?_take, if_pos hi]
    · intro i hi
      simp only
      rw [List.append_assoc,
        List.getElem?_append_right (by simp [Nat.min_eq_left hdest]),
        List.length_take, Nat.min_eq_left hdest, Nat.add_sub_cancel_left,
        List.getElem?_append]
      simp [hi]
    · intro i hi1 hi2
      simp only
      rw [List.append_assoc,
        List.getElem?_append_right (by simp [Nat.min_eq_left hdest]; omega),
        List.length_take, Nat.min_eq_left hdest,
        List.getElem?_append_right (by omega),
        List.getElem?_take, if_pos (by omega), List.getElem?_drop]
      congr 1
      omega

/-- Witness for C5 (amended): on the view `[1,2,3,4]`, inserting `[9,9,9]`
at offset 2 overflows and fails, while inserting `[8,9]` at offset 1
yields `[1,8,9,2]` — the trailing bytes `3, 4` are silently lost. -/
theorem c5_weak_insert_spec_witness :
    (WeakBuffer.insert ⟨1, [1, 2, 3, 4]⟩ [9, 9, 9] 2
      = Except.error "insert would overflow the buffer") ∧
    (WeakBuffer.insert ⟨1, [1, 2, 3, 4]⟩ [8, 9] 1
      = Except.ok (⟨1, [1, 8, 9, 2]⟩, 4)) ∧
    ([1, 8, 9, 2] : List Nat).length = ([1, 2, 3, 4] : List Nat).length := by
  have h1 := (c5_weak_insert_spec ⟨1, [1, 2, 3, 4]⟩ [9, 9, 9] 2 (by norm_num)).1 (by norm_num)
  obtain ⟨v', hok, hlen, -, -, -⟩ :=
    (c5_weak_insert_spec ⟨1, [1, 2, 3, 4]⟩ [8, 9] 1 (by norm_num)).2 (by norm_num)
  have hconc : WeakBuffer.insert ⟨1, [1, 2, 3, 4]⟩ [8, 9] 1
      = Except.ok (⟨1, [1, 8, 9, 2]⟩, 4) := by rfl
  have heq := hconc.symm.trans hok
  simp only [Except.ok.injEq, Prod.mk.injEq] at heq
  obtain ⟨hv, -⟩ := heq
  rw [← hv] at hlen
  exact ⟨h1, hconc, hlen⟩

/-- Counterexample for C6: for the null default view (`begin = nullptr`,
length 0) the copying constructor never allocates, so the round-trip view
is backed by the same null address as the source view — not a distinct
one. -/
theorem c6_view_roundtrip_counterexample :
    (OwningBuffer.ofView ⟨0, []⟩ 7).map (fun b => b.view.addr) = Except.ok 0 ∧
    (⟨0, []⟩ : WeakBuffer).addr = 0 := by
  exact ⟨rfl, rfl⟩

/-- C6 amended: for every View of nonzero length, copying it into an
owning buffer (with the allocator returning a fresh non-null block, as the
allocator contract guarantees for a live source range) and taking `view()`
yields a view of the same length, byte-for-byte equal to the original,
backed by a distinct address; the buffer's length equals its capacity,
which equals the view's length. -/
theorem c6_view_roundtrip (v : WeakBuffer) (a : Nat) (hlen : 0 < v.data.length)
    (ha0 : a ≠ 0) (hfresh : a ≠ v.addr) :
    ∃ b : OwningBuffer, OwningBuffer.ofView v a = Except.ok b ∧
      b.view.data = v.data ∧ b.view.data.length = v.data.length ∧
      b.view.addr ≠ v.addr ∧ b.data.length = b.cap ∧ b.cap = v.data.length := by
  refine ⟨⟨a, v.data, v.data.length, k_default_growth_factor⟩, ?_, rfl, rfl, hfresh, rfl, rfl⟩
  unfold OwningBuffer.ofView OwningBuffer.ofCapacity
  rw [if_pos hlen, if_neg ha0]
  rfl

/-- Witness for C6 (amended): copying the view `[3, 4]` at address 1 into
a buffer allocated at address 5 round-trips the bytes with a distinct
address and a fully used buffer. -/
theorem c6_view_roundtrip_witness :
    OwningBuffer.ofView ⟨1, [3, 4]⟩ 5
      = Except.ok (⟨5, [3, 4], 2, GrowthFactor.mult2x⟩ : OwningBuffer) ∧
    (⟨5, [3, 4], 2, GrowthFactor.mult2x⟩ : OwningBuffer).view.data
      = (⟨1, [3, 4]⟩ : WeakBuffer).data ∧
    (⟨5, [3, 4], 2, GrowthFactor.mult2x⟩ : OwningBuffer).view.addr
      ≠ (⟨1, [3, 4]⟩ : WeakBuffer).addr ∧
    (⟨5, [3, 4], 2, GrowthFactor.mult2x⟩ : OwningBuffer).data.length
      = (⟨5, [3, 4], 2, GrowthFactor.mult2x⟩ : OwningBuffer).cap := by
  obtain ⟨b, hok, hdata, -, haddr, hlen, -⟩ :=
    c6_view_roundtrip ⟨1, [3, 4]⟩ 5 (by norm_num) (by norm_num) (by norm_num)
  have hconc : OwningBuffer.ofView ⟨1, [3, 4]⟩ 5
      = Except.ok (⟨5, [3, 4], 2, GrowthFactor.mult2x⟩ : OwningBuffer) := by rfl
  have heq := hconc.symm.trans hok
  simp only [Except.ok.injEq] at heq
  rw [← heq] at hdata haddr hlen
  exact ⟨hconc, hdata, haddr, hlen⟩

/-- C7: for every view and all valid `(offset, size)` with
`offset + size ≤ length`, `subview(offset, size)` has exactly the source's
bytes `[offset, offset + size)`, and composing subviews is associative:
`subview(o1, s1).subview(o2, s2) = subview(o1 + o2, s2)` whenever both
sides are valid. -/
theorem c7_subview_spec (v : WeakBuffer) :
    (∀ offset size : Nat, offset + size ≤ v.data.length →
      ∃ w : WeakBuffer, v.subview offset size = Except.ok w ∧
        w.data.length = size ∧
        ∀ i : Nat, i < size → w.data[i]? = v.data[offset + i]?) ∧
    (∀ o1 s1 o2 s2 : Nat, o1 + s1 ≤ v.data.length → o2 + s2 ≤ s1 →
      (v.subview o1 s1).bind (fun w => w.subview o2 s2) = v.subview (o1 + o2) s2) := by
  constructor
  · intro offset size hv
    refine ⟨⟨v.addr + offset, (v.data.drop offset).take size⟩, ?_, ?_, ?_⟩
    · unfold WeakBuffer.subview
      rw [if_pos (by omega), if_pos hv]
    · simp only [List.length_take, List.length_drop]
      omega
    · intro i hi
      simp only
      rw [List.getElem?_take, if_pos hi, List.getElem?_drop]
  · intro o1 s1 o2 s2 h1 h2
    have hsub1 : v.subview o1 s1
        = Except.ok ⟨v.addr + o1, (v.data.drop o1).take s1⟩ := by
      unfold WeakBuffer.subview
      rw [if_pos (by omega), if_pos h1]
    have hlen1 : ((v.data.drop o1).take s1).length = s1 := by
      simp only [List.length_take, List.length_drop]
      omega
    rw [hsub1]
    simp only [Except.bind]
    unfold WeakBuffer.subview
    simp only [hlen1]
    rw [if_pos (by omega), if_pos h2, if_pos (by omega), if_pos (by omega)]
    have hdata : (((v.data.drop o1).take s1).drop o2).take s2
        = (v.data.drop (o1 + o2)).take s2 := by
      rw [List.drop_take, List.drop_drop, List.take_take, min_eq_left (by omega)]
    rw [hdata]
    have haddr : v.addr + o1 + o2 = v.addr + (o1 + o2) := by omega
    rw [haddr]

/-- Witness for C7: on the view `[1,2,3,4,5,6]`, `subview(1, 4)` then
`subview(1, 2)` equals `subview(2, 2)`, whose bytes are `[3, 4]`. -/
theorem c7_subview_spec_witness :
    ((WeakBuffer.subview ⟨1, [1, 2, 3, 4, 5, 6]⟩ 1 4).bind fun w => w.subview 1 2)
      = WeakBuffer.subview ⟨1, [1, 2, 3, 4, 5, 6]⟩ 2 2 ∧
    WeakBuffer.subview ⟨1, [1, 2, 3, 4, 5, 6]⟩ 2 2 = Except.ok ⟨3, [3, 4]⟩ := by
  have h := (c7_subview_spec ⟨1, [1, 2, 3, 4, 5, 6]⟩).2 1 4 1 2 (by norm_num) (by norm_num)
  exact ⟨by simpa using h, by rfl⟩

/-- Counterexample for C3: from a buffer with base capacity 0 (the default
construction allocates nothing), one growing append of three bytes under
`mult2x` produces capacity 4 — the doubling starts from `max(1, 0) = 1` —
but no power-of-two multiple of the post-construction base capacity 0 is
at least the high-water mark 3, so the capacity cannot equal "the smallest
power-of-two multiple of the post-construction base capacity". -/
theorem c3_mult2x_counterexample :
    (appendAll ⟨1, [], 0, GrowthFactor.mult2x⟩ 1 [[1, 2, 3]]).map
        (fun b => (b.data.length, b.cap)) = Except.ok (3, 4) ∧
    leastDoubleMultiple 0 3 = Option.none := by
  constructor
  · have h03 : mult2xNext 0 3 = 4 := by
      rw [mult2xNext_of_lt 0 3 (by norm_num)]
      show mult2xNext 2 3 = 4
      rw [mult2xNext_of_lt 2 3 (by norm_num)]
      show mult2xNext 4 3 = 4
      rw [mult2xNext_of_ge 4 3 (by norm_num)]
      norm_num
    obtain ⟨b', ret, hok, hg', hlen, hcap⟩ :=
      append_step ⟨1, [], 0, GrowthFactor.mult2x⟩ [1, 2, 3] 1 rfl (by norm_num) (by simp)
    unfold appendAll
    rw [hok]
    simp only [Except.bind]
    unfold appendAll
    simp only [Except.map, Except.ok.injEq]
    simp only [List.length_nil, List.length_cons, Nat.zero_add] at hlen hcap
    rcases hcap with ⟨hle, -⟩ | ⟨-, hcap⟩
    · omega
    · rw [h03] at hcap
      rw [hlen, hcap]
  · rfl

/-- C3 amended: for every `mult2x` buffer, `next_capacity(min_required)`
returns the first value of the sequence starting at
`max(1, current_capacity)` and doubling repeatedly that is at least
`min_required`; and after any sequence of appends starting from a freshly
constructed buffer whose base capacity is at least 1, the capacity always
bounds the length and equals the smallest power-of-two multiple of the
base capacity that is at least the high-water mark of required space
(which, for appends, is the final length). -/
theorem c3_mult2x_growth (b : OwningBuffer) :
    (b.growth = GrowthFactor.mult2x → ∀ over r : Nat,
      b.next_capacity over = Except.ok r →
      ∃ j : Nat, r = max 1 b.cap * 2 ^ j ∧ over ≤ r ∧
        ∀ i : Nat, over ≤ max 1 b.cap * 2 ^ i → j ≤ i) ∧
    (∀ c0 addr fresh : Nat, ∀ srcs : List (List Nat), ∀ b' : OwningBuffer,
      1 ≤ c0 → fresh ≠ 0 →
      appendAll ⟨addr, [], c0, GrowthFactor.mult2x⟩ fresh srcs = Except.ok b' →
      b'.data.length ≤ b'.cap ∧
      ∃ k : Nat, b'.cap = c0 * 2 ^ k ∧
        ∀ j : Nat, b'.data.length ≤ c0 * 2 ^ j → k ≤ j) := by
  constructor
  · intro hg over r hr
    unfold OwningBuffer.next_capacity at hr
    rw [hg] at hr
    simp only [Except.ok.injEq] at hr
    obtain ⟨j, hj, hge, hmin⟩ := mult2xNext_least b.cap over
    exact ⟨j, by rw [← hr, hj], by rw [← hr]; exact hge, hmin⟩
  · intro c0 addr fresh srcs b' hc0 hfresh happ
    have hinv0 : mult2xInv c0 ⟨addr, [], c0, GrowthFactor.mult2x⟩ := by
      exact ⟨by simp, 0, by simp, fun j _ => Nat.zero_le j⟩
    exact appendAll_inv c0 fresh hc0 hfresh srcs _ b' rfl hinv0 happ

/-- Witness for C3 (amended): a `mult2x` buffer of capacity 4 computes
`next_capacity(9) = 16`, and appending five bytes from base capacity 4
grows the capacity to 8, the smallest power-of-two multiple of 4 that is
at least 5. -/
theorem c3_mult2x_growth_witness :
    OwningBuffer.next_capacity ⟨1, [], 4, GrowthFactor.mult2x⟩ 9 = Except.ok 16 ∧
    (9 : Nat) ≤ 16 ∧
    (appendAll ⟨1, [], 4, GrowthFactor.mult2x⟩ 1 [[1, 2, 3, 4, 5]]).map
        (fun b => (b.data.length, b.cap)) = Except.ok (5, 8) ∧
    (5 : Nat) ≤ 8 := by
  have h49 : mult2xNext 4 9 = 16 := by
    rw [mult2xNext_of_lt 4 9 (by norm_num)]
    show mult2xNext 8 9 = 16
    rw [mult2xNext_of_lt 8 9 (by norm_num)]
    show mult2xNext 16 9 = 16
    rw [mult2xNext_of_ge 16 9 (by norm_num)]
    norm_num
  have h45 : mult2xNext 4 5 = 8 := by
    rw [mult2xNext_of_lt 4 5 (by norm_num)]
    show mult2xNext 8 5 = 8
    rw [mult2xNext_of_ge 8 5 (by norm_num)]
    norm_num
  have hnext : OwningBuffer.next_capacity ⟨1, [], 4, GrowthFactor.mult2x⟩ 9
      = Except.ok 16 := by
    show Except.ok (mult2xNext 4 9) = Except.ok 16
    rw [h49]
  obtain ⟨j, -, hj2, -⟩ :=
    (c3_mult2x_growth ⟨1, [], 4, GrowthFactor.mult2x⟩).1 rfl 9 16 hnext
  obtain ⟨b2, ret, hok, -, hlen2, hcap2⟩ :=
    append_step ⟨1, [], 4, GrowthFactor.mult2x⟩ [1, 2, 3, 4, 5] 1 rfl (by norm_num) (by simp)
  simp only [List.length_nil, List.length_cons, Nat.zero_add] at hlen2 hcap2
  have hcap8 : b2.cap = 8 := by
    rcases hcap2 with ⟨hle, -⟩ | ⟨-, hcap⟩
    · omega
    · rw [hcap, h45]
  have happ : appendAll ⟨1, [], 4, GrowthFactor.mult2x⟩ 1 [[1, 2, 3, 4, 5]]
      = Except.ok b2 := by
    unfold appendAll
    rw [hok]
    simp only [Except.bind]
    unfold appendAll
    rfl
  have hb := (c3_mult2x_growth ⟨1, [], 4, GrowthFactor.mult2x⟩).2 4 1 1
    [[1, 2, 3, 4, 5]] b2 (by norm_num) (by norm_num) happ
  have hle58 : (5 : Nat) ≤ 8 := by
    have h1 := hb.1
    rw [hlen2, hcap8] at h1
    exact h1
  refine ⟨hnext, hj2, ?_, hle58⟩
  rw [happ]
  simp only [Except.map, Except.ok.injEq]
  rw [hlen2, hcap8]

theorem write_bytes_none_eq (s : MemoryOutputStream) (input : WeakBuffer) (fresh : Nat)
    (haddr : ¬ input.addr = 0) (hne : ¬ input.data.length = 0)
    (hg : s.buffer.growth = GrowthFactor.none) :
    s.write_bytes input fresh
      = (s.buffer.overwrite
          (input.data.take (min (input.data.length : Int)
            ((s.buffer.cap : Int) - s.position)).toNat)
          s.position.toNat fresh).map
        fun br =>
          ({ buffer := br.1,
             position := s.position
               + min (input.data.length : Int) ((s.buffer.cap : Int) - s.position) },
           min (input.data.length : Int) ((s.buffer.cap : Int) - s.position)) := by
  unfold MemoryOutputStream.write_bytes
  rw [if_neg haddr, if_neg hne, if_pos hg]

/-- C8: a memory output stream over a `none`-growth buffer writes
`min(requested, remaining capacity)` bytes — never triggering the buffer's
fatal growth error — and advances the position by that count; in
particular capacity and policy are preserved and the position keeps
bounding the buffer length, so writes chain.  (`write_bytes` itself
requires a non-null, non-empty input.) -/
theorem c8_write_none_partial (s : MemoryOutputStream) (input : WeakBuffer) (fresh : Nat)
    (hg : s.buffer.growth = GrowthFactor.none) (hwf : s.buffer.wf)
    (hpos0 : 0 ≤ s.position) (hposlen : s.position ≤ (s.buffer.data.length : Int))
    (haddr : input.addr ≠ 0) (hne : input.data.length ≠ 0) :
    ∃ s' : MemoryOutputStream,
      s.write_bytes input fresh
        = Except.ok (s', min (input.data.length : Int) ((s.buffer.cap : Int) - s.position)) ∧
      s'.position
        = s.position + min (input.data.length : Int) ((s.buffer.cap : Int) - s.position) ∧
      s'.buffer.cap = s.buffer.cap ∧
      s'.buffer.growth = GrowthFactor.none ∧
      (s'.buffer.data.length : Int) = max (s.buffer.data.length : Int) s'.position ∧
      s'.position ≤ (s'.buffer.data.length : Int) := by
  have hwf' : s.buffer.data.length ≤ s.buffer.cap := hwf
  have hdest : s.position.toNat ≤ s.buffer.data.length := by omega
  have hsrclen : (input.data.take (min (input.data.length : Int)
      ((s.buffer.cap : Int) - s.position)).toNat).length
      = (min (input.data.length : Int) ((s.buffer.cap : Int) - s.position)).toNat := by
    rw [List.length_take]
    omega
  have hfit : (input.data.take (min (input.data.length : Int)
      ((s.buffer.cap : Int) - s.position)).toNat).length
      ≤ s.buffer.cap - s.position.toNat := by
    rw [hsrclen]
    omega
  have hov := overwrite_nogrow s.buffer
    (input.data.take (min (input.data.length : Int)
      ((s.buffer.cap : Int) - s.position)).toNat)
    s.position.toNat fresh hdest hfit
  refine ⟨⟨⟨s.buffer.addr,
      listOverwrite s.buffer.data
        (input.data.take (min (input.data.length : Int)
          ((s.buffer.cap : Int) - s.position)).toNat) s.position.toNat,
      s.buffer.cap, s.buffer.growth⟩,
    s.position + min (input.data.length : Int) ((s.buffer.cap : Int) - s.position)⟩,
    ?_, rfl, rfl, hg, ?_, ?_⟩
  · rw [write_bytes_none_eq s input fresh haddr hne hg, hov]
    rfl
  · simp only
    rw [listOverwrite_length _ _ _ hdest, hsrclen]
    push_cast
    omega
  · simp only
    rw [listOverwrite_length _ _ _ hdest, hsrclen]
    push_cast
    omega

/-- Witness for C8: scenario D — a 19-byte `none` stream accepts 19 of 20
bytes (position advances to 19) and a subsequent non-empty write returns
0 bytes written. -/
theorem c8_write_none_partial_witness :
    c8stream0.write_bytes c8input 0 = Except.ok (c8stream1, 19) ∧
    c8stream1.position = 19 ∧
    c8stream1.write_bytes c8input 0 = Except.ok (c8stream1, 0) := by
  obtain ⟨s', hok, hpos, -, -, -, -⟩ :=
    c8_write_none_partial c8stream0 c8input 0 rfl (by decide) (by decide) (by decide)
      (by decide) (by decide)
  obtain ⟨s'', hok2, -, -, -, -, -⟩ :=
    c8_write_none_partial c8stream1 c8input 0 rfl (by decide) (by decide) (by decide)
      (by decide) (by decide)
  exact ⟨by rfl, by rfl, by rfl⟩

/-- C9: memory streams reject zero-length transfers rather than reporting
a zero count: `read_bytes` fails on a null or empty output view, and
`write_bytes` fails on a null or empty input view, in each case returning
the `io_exception` error before any position or buffer update. -/
theorem c9_zero_transfer_rejected (si : MemoryInputStream) (so : MemoryOutputStream)
    (v : WeakBuffer) (fresh : Nat) :
    (v.addr = 0 →
      si.read_bytes v = Except.error "cannot read from input streams into nullptr" ∧
      so.write_bytes v fresh = Except.error "cannot write to output streams from nullptr") ∧
    (v.addr ≠ 0 → v.data.length = 0 →
      si.read_bytes v = Except.error "cannot read zero bytes from input streams" ∧
      so.write_bytes v fresh = Except.error "cannot write zero bytes to output streams") := by
  constructor
  · intro h0
    constructor
    · unfold MemoryInputStream.read_bytes
      rw [if_pos h0]
    · unfold MemoryOutputStream.write_bytes
      rw [if_pos h0]
  · intro ha hl
    constructor
    · unfold MemoryInputStream.read_bytes
      rw [if_neg ha, if_pos hl]
    · unfold MemoryOutputStream.write_bytes
      rw [if_neg ha, if_pos hl]

/-- Witness for C9: a null one-byte view and a non-null empty view are
both rejected by `read_bytes` and `write_bytes` on concrete streams. -/
theorem c9_zero_transfer_rejected_witness :
    (MemoryInputStream.read_bytes ⟨⟨1, [5], 1, GrowthFactor.mult2x⟩, 0⟩ ⟨0, [9]⟩
      = Except.error "cannot read from input streams into nullptr") ∧
    (MemoryOutputStream.write_bytes ⟨⟨1, [5], 1, GrowthFactor.mult2x⟩, 0⟩ ⟨0, [9]⟩ 1
      = Except.error "cannot write to output streams from nullptr") ∧
    (MemoryInputStream.read_bytes ⟨⟨1, [5], 1, GrowthFactor.mult2x⟩, 0⟩ ⟨3, []⟩
      = Except.error "cannot read zero bytes from input streams") ∧
    (MemoryOutputStream.write_bytes ⟨⟨1, [5], 1, GrowthFactor.mult2x⟩, 0⟩ ⟨3, []⟩ 1
      = Except.error "cannot write zero bytes to output streams") := by
  obtain ⟨hnull, -⟩ := c9_zero_transfer_rejected ⟨⟨1, [5], 1, GrowthFactor.mult2x⟩, 0⟩
    ⟨⟨1, [5], 1, GrowthFactor.mult2x⟩, 0⟩ ⟨0, [9]⟩ 1
  obtain ⟨-, hempty⟩ := c9_zero_transfer_rejected ⟨⟨1, [5], 1, GrowthFactor.mult2x⟩, 0⟩
    ⟨⟨1, [5], 1, GrowthFactor.mult2x⟩, 0⟩ ⟨3, []⟩ 1
  obtain ⟨h1, h2⟩ := hnull rfl
  obtain ⟨h3, h4⟩ := hempty (by decide) rfl
  exact ⟨h1, h2, h3, h4⟩

theorem doCalcPosition_begin_ok (L pos off : Int) (h1 : 0 ≤ off) (h2 : off < L) :
    DoCalcPosition SeekOrigin.begin L pos off = Except.ok off := by
  unfold DoCalcPosition
  rw [if_pos h1, if_pos h2]

theorem doCalcPosition_begin_err (L pos off : Int) (h : ¬ (0 ≤ off ∧ off < L)) :
    ∃ e, DoCalcPosition SeekOrigin.begin L pos off = Except.error e := by
  unfold DoCalcPosition
  by_cases h1 : 0 ≤ off
  · rw [if_pos h1, if_neg (by omega)]
    exact ⟨_, rfl⟩
  · rw [if_neg h1]
    exact ⟨_, rfl⟩

theorem doCalcPosition_current_ok (L pos off : Int) (h1 : 0 ≤ pos + off)
    (h2 : pos + off ≤ L) :
    DoCalcPosition SeekOrigin.current L pos off = Except.ok (pos + off) := by
  unfold DoCalcPosition
  rw [if_pos h1, if_pos h2]

theorem doCalcPosition_current_err (L pos off : Int)
    (h : ¬ (0 ≤ pos + off ∧ pos + off ≤ L)) :
    ∃ e, DoCalcPosition SeekOrigin.current L pos off = Except.error e := by
  have hred : DoCalcPosition SeekOrigin.current L pos off
      = if 0 ≤ pos + off then
          if pos + off ≤ L then Except.ok (pos + off)
          else Except.error "cannot seek offset beyond the underlying buffer end"
        else Except.error "cannot seek offset below the underlying buffer start" := rfl
  rw [hred]
  by_cases h1 : 0 ≤ pos + off
  · rw [if_pos h1, if_neg (by omega)]
    exact ⟨_, rfl⟩
  · rw [if_neg h1]
    exact ⟨_, rfl⟩

theorem doCalcPosition_end_ok (L pos off : Int) (h1 : off ≤ 0) (h2 : -L < off) :
    DoCalcPosition SeekOrigin.end_ L pos off = Except.ok (L + off) := by
  unfold DoCalcPosition
  rw [if_pos h1, if_pos h2]

theorem doCalcPosition_end_err (L pos off : Int) (h : ¬ (-L < off ∧ off ≤ 0)) :
    ∃ e, DoCalcPosition SeekOrigin.end_ L pos off = Except.error e := by
  have hred : DoCalcPosition SeekOrigin.end_ L pos off
      = if off ≤ 0 then
          if -L < off then Except.ok (L + off)
          else Except.error "cannot seek offset from the beginning beyond the underlying buffer"
        else Except.error "cannot seek positive offset from the end of the underlying buffer" := rfl
  rw [hred]
  by_cases h1 : off ≤ 0
  · rw [if_pos h1, if_neg (by omega)]
    exact ⟨_, rfl⟩
  · rw [if_neg h1]
    exact ⟨_, rfl⟩

/-- C10: for a memory stream of length `L > 0` the seek ranges are
asymmetric: `seek_begin` accepts exactly `0 ≤ offset < L` (so position `L`
is unreachable from the beginning), `seek_current` accepts exactly
`0 ≤ position + offset ≤ L` (so position `L` is reachable), and `seek_end`
accepts exactly `-L < offset ≤ 0` (so `seek_end(0)` yields position `L`
while `seek_end(-L)` fails); this holds for both the input and the output
memory stream. -/
theorem c10_seek_asymmetry (si : MemoryInputStream) (so : MemoryOutputStream) (off : Int)
    (hLi : 0 < (si.buffer.data.length : Int)) (hLo : 0 < (so.buffer.data.length : Int)) :
    ((∃ s', si.seek_begin off = Except.ok s' ∧ s'.position = off)
        ↔ 0 ≤ off ∧ off < (si.buffer.data.length : Int)) ∧
    (∃ e, si.seek_begin (si.buffer.data.length : Int) = Except.error e) ∧
    ((∃ s', si.seek_current off = Except.ok s' ∧ s'.position = si.position + off)
        ↔ 0 ≤ si.position + off ∧ si.position + off ≤ (si.buffer.data.length : Int)) ∧
    (si.seek_current ((si.buffer.data.length : Int) - si.position)
        = Except.ok ⟨si.buffer, (si.buffer.data.length : Int)⟩) ∧
    ((∃ s', si.seek_end off = Except.ok s'
          ∧ s'.position = (si.buffer.data.length : Int) + off)
        ↔ -(si.buffer.data.length : Int) < off ∧ off ≤ 0) ∧
    (si.seek_end 0 = Except.ok ⟨si.buffer, (si.buffer.data.length : Int)⟩) ∧
    (∃ e, si.seek_end (-(si.buffer.data.length : Int)) = Except.error e) ∧
    ((∃ s', so.seek_begin off = Except.ok s' ∧ s'.position = off)
        ↔ 0 ≤ off ∧ off < (so.buffer.data.length : Int)) ∧
    (∃ e, so.seek_begin (so.buffer.data.length : Int) = Except.error e) ∧
    ((∃ s', so.seek_current off = Except.ok s' ∧ s'.position = so.position + off)
        ↔ 0 ≤ so.position + off ∧ so.position + off ≤ (so.buffer.data.length : Int)) ∧
    (so.seek_current ((so.buffer.data.length : Int) - so.position)
        = Except.ok ⟨so.buffer, (so.buffer.data.length : Int)⟩) ∧
    ((∃ s', so.seek_end off = Except.ok s'
          ∧ s'.position = (so.buffer.data.length : Int) + off)
        ↔ -(so.buffer.data.length : Int) < off ∧ off ≤ 0) ∧
    (so.seek_end 0 = Except.ok ⟨so.buffer, (so.buffer.data.length : Int)⟩) ∧
    (∃ e, so.seek_end (-(so.buffer.data.length : Int)) = Except.error e) := by
  refine ⟨?_, ?_, ?_, ?_, ?_, ?_, ?_, ?_, ?_, ?_, ?_, ?_, ?_, ?_⟩
  · constructor
    · rintro ⟨s', hs, -⟩
      by_contra hcond
      obtain ⟨e, he⟩ := doCalcPosition_begin_err (si.buffer.data.length : Int)
        si.position off hcond
      unfold MemoryInputStream.seek_begin at hs
      rw [he] at hs
      exact Except.noConfusion hs
    · rintro ⟨h1, h2⟩
      refine ⟨⟨si.buffer, off⟩, ?_, rfl⟩
      unfold MemoryInputStream.seek_begin
      rw [doCalcPosition_begin_ok _ _ _ h1 h2]
      rfl
  · obtain ⟨e, he⟩ := doCalcPosition_begin_err (si.buffer.data.length : Int)
      si.position (si.buffer.data.length : Int) (by omega)
    refine ⟨e, ?_⟩
    unfold MemoryInputStream.seek_begin
    rw [he]
    rfl
  · constructor
    · rintro ⟨s', hs, -⟩
      by_contra hcond
      obtain ⟨e, he⟩ := doCalcPosition_current_err (si.buffer.data.length : Int)
        si.position off hcond
      unfold MemoryInputStream.seek_current at hs
      rw [he] at hs
      exact Except.noConfusion hs
    · rintro ⟨h1, h2⟩
      refine ⟨⟨si.buffer, si.position + off⟩, ?_, rfl⟩
      unfold MemoryInputStream.seek_current
      rw [doCalcPosition_current_ok _ _ _ h1 h2]
      rfl
  · unfold MemoryInputStream.seek_current
    have harith : si.position + ((si.buffer.data.length : Int) - si.position)
        = (si.buffer.data.length : Int) := by omega
    rw [doCalcPosition_current_ok (si.buffer.data.length : Int) si.position
      ((si.buffer.data.length : Int) - si.position) (by omega) (by omega), harith]
    rfl
  · constructor
    · rintro ⟨s', hs, -⟩
      by_contra hcond
      obtain ⟨e, he⟩ := doCalcPosition_end_err (si.buffer.data.length : Int)
        si.position off hcond
      unfold MemoryInputStream.seek_end at hs
      rw [he] at hs
      exact Except.noConfusion hs
    · rintro ⟨h1, h2⟩
      refine ⟨⟨si.buffer, (si.buffer.data.length : Int) + off⟩, ?_, rfl⟩
      unfold MemoryInputStream.seek_end
      rw [doCalcPosition_end_ok _ _ _ h2 h1]
      rfl
  · unfold MemoryInputStream.seek_end
    have harith : (si.buffer.data.length : Int) + 0 = (si.buffer.data.length : Int) := by
      omega
    rw [doCalcPosition_end_ok (si.buffer.data.length : Int) si.position 0 (by omega)
      (by omega), harith]
    rfl
  · obtain ⟨e, he⟩ := doCalcPosition_end_err (si.buffer.data.length : Int)
      si.position (-(si.buffer.data.length : Int)) (by omega)
    refine ⟨e, ?_⟩
    unfold MemoryInputStream.seek_end
    rw [he]
    rfl
  · constructor
    · rintro ⟨s', hs, -⟩
      by_contra hcond
      obtain ⟨e, he⟩ := doCalcPosition_begin_err (so.buffer.data.length : Int)
        so.position off hcond
      unfold MemoryOutputStream.seek_begin at hs
      rw [he] at hs
      exact Except.noConfusion hs
    · rintro ⟨h1, h2⟩
      refine ⟨⟨so.buffer, off⟩, ?_, rfl⟩
      unfold MemoryOutputStream.seek_begin
      rw [doCalcPosition_begin_ok _ _ _ h1 h2]
      rfl
  · obtain ⟨e, he⟩ := doCalcPosition_begin_err (so.buffer.data.length : Int)
      so.position (so.buffer.data.length : Int) (by omega)
    refine ⟨e, ?_⟩
    unfold MemoryOutputStream.seek_begin
    rw [he]
    rfl
  · constructor
    · rintro ⟨s', hs, -⟩
      by_contra hcond
      obtain ⟨e, he⟩ := doCalcPosition_current_err (so.buffer.data.length : Int)
        so.position off hcond
      unfold MemoryOutputStream.seek_current at hs
      rw [he] at hs
      exact Except.noConfusion hs
    · rintro ⟨h1, h2⟩
      refine ⟨⟨so.buffer, so.position + off⟩, ?_, rfl⟩
      unfold MemoryOutputStream.seek_current
      rw [doCalcPosition_current_ok _ _ _ h1 h2]
      rfl
  · unfold MemoryOutputStream.seek_current
    have harith : so.position + ((so.buffer.data.length : Int) - so.position)
        = (so.buffer.data.length : Int) := by omega
    rw [doCalcPosition_current_ok (so.buffer.data.length : Int) so.position
      ((so.buffer.data.length : Int) - so.position) (by omega) (by omega), harith]
    rfl
  · constructor
    · rintro ⟨s', hs, -⟩
      by_contra hcond
      obtain ⟨e, he⟩ := doCalcPosition_end_err (so.buffer.data.length : Int)
        so.position off hcond
      unfold MemoryOutputStream.seek_end at hs
      rw [he] at hs
      exact Except.noConfusion hs
    · rintro ⟨h1, h2⟩
      refine ⟨⟨so.buffer, (so.buffer.data.length : Int) + off⟩, ?_, rfl⟩
      unfold MemoryOutputStream.seek_end
      rw [doCalcPosition_end_ok _ _ _ h2 h1]
      rfl
  · unfold MemoryOutputStream.seek_end
    have harith : (so.buffer.data.length : Int) + 0 = (so.buffer.data.length : Int) := by
      omega
    rw [doCalcPosition_end_ok (so.buffer.data.length : Int) so.position 0 (by omega)
      (by omega), harith]
    rfl
  · obtain ⟨e, he⟩ := doCalcPosition_end_err (so.buffer.data.length : Int)
      so.position (-(so.buffer.data.length : Int)) (by omega)
    refine ⟨e, ?_⟩
    unfold MemoryOutputStream.seek_end
    rw [he]
    rfl

/-- Witness for C10: on three-byte memory streams, `seek_begin(3)` and
`seek_end(-3)` fail while `seek_end(0)` reaches position 3. -/
theorem c10_seek_asymmetry_witness :
    (MemoryInputStream.seek_begin ⟨⟨1, [7, 8, 9], 3, GrowthFactor.mult2x⟩, 0⟩ 3
      = Except.error "cannot seek offset from the beginning beyond the underlying buffer") ∧
    (MemoryInputStream.seek_end ⟨⟨1, [7, 8, 9], 3, GrowthFactor.mult2x⟩, 0⟩ 0
      = Except.ok ⟨⟨1, [7, 8, 9], 3, GrowthFactor.mult2x⟩, 3⟩) ∧
    (MemoryInputStream.seek_end ⟨⟨1, [7, 8, 9], 3, GrowthFactor.mult2x⟩, 0⟩ (-3)
      = Except.error "cannot seek offset from the beginning beyond the underlying buffer") ∧
    (MemoryOutputStream.seek_begin ⟨⟨1, [7, 8, 9], 3, GrowthFactor.mult2x⟩, 0⟩ 2
      = Except.ok ⟨⟨1, [7, 8, 9], 3, GrowthFactor.mult2x⟩, 2⟩) := by
  obtain ⟨-, -, -, -, -, hend0, -, hbegin, -, -, -, -, -, -⟩ :=
    c10_seek_asymmetry ⟨⟨1, [7, 8, 9], 3, GrowthFactor.mult2x⟩, 0⟩
      ⟨⟨1, [7, 8, 9], 3, GrowthFactor.mult2x⟩, 0⟩ 2 (by decide) (by decide)
  obtain ⟨s', hs, -⟩ := hbegin.mpr (by constructor <;> decide)
  have hsconc : MemoryOutputStream.seek_begin ⟨⟨1, [7, 8, 9], 3, GrowthFactor.mult2x⟩, 0⟩ 2
      = Except.ok ⟨⟨1, [7, 8, 9], 3, GrowthFactor.mult2x⟩, 2⟩ := by rfl
  exact ⟨by rfl, by simpa using hend0, by rfl, hsconc⟩

end Reio
